import Mathlib

/-!
Verification of the caudal streamflow pipeline (column identification,
missing-value cleaning, timestamp synthesis, delimited-text loading,
CSV round-trip and output-file behaviour) against its specification.

The Python sources are embedded shallowly: pandas frames become
`TabularFrame` (a list of named, dtype-flagged columns of cells),
missing values become `Cell.na`, machine floats become `ℚ`, and the
exception-driven parser fallthrough becomes an explicit ordered list of
attempts.
-/

namespace Caudal

/-! ### Character and list helpers -/

/-- Boolean test that `p` is a prefix of `l` (character lists). -/
def isPrefixL : List Char → List Char → Bool
  | [], _ => true
  | _ :: _, [] => false
  | a :: as, b :: bs => a == b && isPrefixL as bs

/-- Python's substring test `needle in hay` over character lists. -/
def containsSub (needle : List Char) : List Char → Bool
  | [] => needle.isEmpty
  | c :: t => isPrefixL needle (c :: t) || containsSub needle t

/-- `str.lower()` of a Python column name, as a character list. -/
def lowerL (s : String) : List Char := s.data.map Char.toLower

/-- Boolean-mask row selection, as in pandas `df[mask]`. -/
def maskFilter : List Bool → List α → List α
  | b :: bs, a :: as => if b then a :: maskFilter bs as else maskFilter bs as
  | _, _ => []

/-! ### The tabular data model -/

/-- One cell of a frame: missing (`NaN`), a numeric value, or text. -/
inductive Cell where
  | na : Cell
  | num : ℚ → Cell
  | str : String → Cell
deriving DecidableEq

/-- `pd.isna` on one cell. -/
def isNA : Cell → Bool
  | .na => true
  | _ => false

/-- Whether a cell is text (used to model dtype inference). -/
def isStr : Cell → Bool
  | .str _ => true
  | _ => false

/-- A named column with its inferred-numeric dtype flag and cells. -/
structure Col where
  name : String
  numeric : Bool
  cells : List Cell
deriving DecidableEq

/-- A pandas DataFrame: an ordered sequence of named columns. -/
structure TabularFrame where
  cols : List Col
deriving DecidableEq

/-- `len(df)`: the row count (length of the first column). -/
def nRows (f : TabularFrame) : ℕ :=
  match f.cols with
  | [] => 0
  | c :: _ => c.cells.length

/-- The column names, in order. -/
def colNames (f : TabularFrame) : List String := f.cols.map (·.name)

/-- `df[col]`: cells of the first column named `col` (empty if absent). -/
def valueCells (f : TabularFrame) (col : String) : List Cell :=
  ((f.cols.find? (fun c => c.name == col)).map (·.cells)).getD []

/-- All columns share the frame's row count. -/
def WellFormed (f : TabularFrame) : Prop :=
  ∀ c ∈ f.cols, c.cells.length = nRows f

instance (f : TabularFrame) : Decidable (WellFormed f) := by
  unfold WellFormed
  exact List.decidableBAll _ _

/-! ### Column identification (stage 3)

`identify_columns` of `plot_1960_2025.py` (with the `valor` term and the
coordinate exclusions) and of `download_and_plot.py` (without them). -/

/-- Date-column search terms shared by both scripts. -/
def dateTerms : List String := ["date", "time", "fecha", "dia"]

/-- Value-column terms of `plot_1960_2025.py` (includes `valor`). -/
def valueTermsPlot : List String :=
  ["q", "streamflow", "flow", "caudal", "m3s", "m³/s", "discharge", "valor"]

/-- Value-column terms of `download_and_plot.py` (no `valor`). -/
def valueTermsDownload : List String :=
  ["q", "streamflow", "flow", "caudal", "m3s", "m³/s", "discharge"]

/-- `any(term in col_lower for term in terms)`. -/
def matchesAny (terms : List String) (name : String) : Bool :=
  terms.any (fun t => containsSub t.data (lowerL name))

/-- The exact-name coordinate exclusion list of `plot_1960_2025.py`. -/
def excludeNames : List (List Char) :=
  ["longitud".data, "latitud".data, "lon".data, "lat".data, "x".data, "y".data]

/-- Name-based value-column test of `plot_1960_2025.py` on an already
lowercased name: a term matches and the name is not a
`longitud`/`latitud` coordinate. -/
def isValueNameL (L : List Char) : Bool :=
  valueTermsPlot.any (fun t => containsSub t.data L) &&
    !containsSub "longitud".data L &&
    !containsSub "latitud".data L

/-- Name-based value-column test of `plot_1960_2025.py`. -/
def isValueNamePlot (name : String) : Bool := isValueNameL (lowerL name)

/-- `identify_columns(df)` of `plot_1960_2025.py`: returns the date
column (if any) and the streamflow column (if any).  The numeric
fallback removes the date column (when its name is truthy) and every
column whose lowercased name is exactly a coordinate name. -/
def identifyPlot (f : TabularFrame) : Option String × Option String :=
  let dateCol := (f.cols.find? (fun c => matchesAny dateTerms c.name)).map (·.name)
  let byName := (f.cols.find? (fun c => isValueNamePlot c.name)).map (·.name)
  let value :=
    match byName with
    | some v => some v
    | none =>
      let numCols := (f.cols.filter (·.numeric)).map (·.name)
      let numCols1 :=
        match dateCol with
        | some d => if d = "" then numCols else numCols.erase d
        | none => numCols
      let numCols2 := numCols1.filter (fun nm => !(excludeNames.contains (lowerL nm)))
      numCols2.head?
  (dateCol, value)

/-- `identify_columns(df)` of `download_and_plot.py`: no `valor` term,
no coordinate exclusion anywhere. -/
def identifyDownload (f : TabularFrame) : Option String × Option String :=
  let dateCol := (f.cols.find? (fun c => matchesAny dateTerms c.name)).map (·.name)
  let byName := (f.cols.find? (fun c => matchesAny valueTermsDownload c.name)).map (·.name)
  let value :=
    match byName with
    | some v => some v
    | none =>
      let numCols := (f.cols.filter (·.numeric)).map (·.name)
      let numCols1 :=
        match dateCol with
        | some d => if d = "" then numCols else numCols.erase d
        | none => numCols
      numCols1.head?
  (dateCol, value)

/-! ### The cleaner (stage 4) -/

/-- Forward fill carrying the last seen cell (`NaN` before any valid). -/
def ffillGo : Cell → List Cell → List Cell
  | _, [] => []
  | carry, c :: t => if isNA c then carry :: ffillGo carry t else c :: ffillGo c t

/-- pandas `Series.ffill()`. -/
def ffill (l : List Cell) : List Cell := ffillGo .na l

/-- pandas `Series.bfill()`: forward fill of the reversed series. -/
def bfill (l : List Cell) : List Cell := (ffill l.reverse).reverse

/-- First numeric cell at or after the running index. -/
def firstNumFrom : ℕ → List Cell → Option (ℕ × ℚ)
  | _, [] => none
  | i, c :: t =>
    match c with
    | .num q => some (i, q)
    | _ => firstNumFrom (i + 1) t

/-- Last numeric cell of a list, with its index. -/
def lastNum (l : List Cell) : Option (ℕ × ℚ) :=
  match firstNumFrom 0 l.reverse with
  | some (j, q) => some (l.length - 1 - j, q)
  | none => none

/-- One position of pandas `Series.interpolate(method='linear')`: an
interior gap is filled linearly between the nearest numeric neighbours
by row position, a trailing gap repeats the last numeric value, and a
leading gap stays missing. -/
def interpCell (l : List Cell) (i : ℕ) : Cell :=
  match (l.get? i).getD .na with
  | .na =>
    match lastNum (l.take i), firstNumFrom 0 (l.drop (i + 1)) with
    | some (j, vj), some (d, vk) =>
      let k := i + 1 + d
      .num (vj + (vk - vj) * (((i : ℚ) - (j : ℚ)) / ((k : ℚ) - (j : ℚ))))
    | some (_, vj), none => .num vj
    | none, _ => .na
  | c => c

/-- pandas `Series.interpolate(method='linear')`. -/
def interpolate (l : List Cell) : List Cell :=
  (List.range l.length).map (interpCell l)

/-- The shared fill sequence of `clean_data`: `ffill().bfill()`, then
`interpolate(method='linear')` only if values are still missing. -/
def fillColumn (l : List Cell) : List Cell :=
  if (bfill (ffill l)).any isNA then interpolate (bfill (ffill l)) else bfill (ffill l)

/-- One column as rewritten by `clean_data`'s fill-and-drop: the value
column receives the filled cells, every column is row-filtered by the
same still-missing mask. -/
def cleanCol (colName : String) (filled : List Cell) (mask : List Bool) (c : Col) : Col :=
  if c.name == colName then { c with cells := maskFilter mask filled }
  else { c with cells := maskFilter mask c.cells }

/-- `clean_data(df, streamflow_col)` shared by `plot_1960_2025.py` and
`download_and_plot.py`: when the value column has missing entries, fill
it and drop (via `dropna(subset=[col])`) the rows whose value is still
missing; otherwise return the frame unchanged. -/
def cleanFrame (f : TabularFrame) (colName : String) : TabularFrame :=
  let cells := valueCells f colName
  if cells.any isNA then
    let filled := fillColumn cells
    let mask := filled.map (fun c => !isNA c)
    ⟨f.cols.map (cleanCol colName filled mask)⟩
  else f

/-- `clean_data` of `plot_1960_2025.py`: its report line divides
`missing_count` (a numpy integer) by `len(df_clean)`; on a zero-row
frame this is numpy scalar division, which produces `nan` with a
runtime warning rather than raising, so the function is total and
performs the shared fill-and-drop on every input. -/
def cleanPlot (f : TabularFrame) (colName : String) : TabularFrame :=
  cleanFrame f colName

/-- `clean_data` of `download_and_plot.py`: its report line has no
division, so the function is total. -/
def cleanDownload (f : TabularFrame) (colName : String) : TabularFrame :=
  cleanFrame f colName

/-! ### Concrete frames used by scenarios -/

/-- The rational 12.5 in kernel-reducible constructor form. -/
def q125 : ℚ := ⟨25, 2, by decide, by decide⟩

/-- The rational 13.25 in kernel-reducible constructor form. -/
def q1325 : ℚ := ⟨53, 4, by decide, by decide⟩

/-- The rational 14.0 in kernel-reducible constructor form. -/
def q14 : ℚ := ⟨14, 1, by decide, by decide⟩

/-- The 4-row end-to-end scenario payload, already parsed: header
`fecha,caudal_m3s`, value entries missing, 12.5, missing, 14.0. -/
def demoFrame : TabularFrame :=
  ⟨[⟨"fecha", false,
      [.str "1961-01-01", .str "1961-01-02", .str "1961-01-03", .str "1961-01-04"]⟩,
    ⟨"caudal_m3s", true, [.na, .num q125, .na, .num q14]⟩]⟩

/-- A spatial-export payload with columns `longitud, latitud, valor`,
all of numeric dtype. -/
def demoGeo : TabularFrame :=
  ⟨[⟨"longitud", true, [.num ⟨-72, 1, by decide, by decide⟩]⟩,
    ⟨"latitud", true, [.num ⟨-39, 1, by decide, by decide⟩]⟩,
    ⟨"valor", true, [.num ⟨5, 1, by decide, by decide⟩]⟩]⟩

/-- A frame whose value column has only an interior gap. -/
def demoInterior : TabularFrame :=
  ⟨[⟨"fecha", false, [.str "a", .str "b", .str "c"]⟩,
    ⟨"caudal_m3s", true, [.num ⟨10, 1, by decide, by decide⟩, .na, .num q14]⟩]⟩

/-- A frame with the right header but zero data rows. -/
def emptyFrame : TabularFrame :=
  ⟨[⟨"fecha", false, []⟩, ⟨"caudal_m3s", true, []⟩]⟩

/-! ### Timestamp materialization

Timestamps are modelled as integer day numbers with 1960-01-01 = 0. -/

/-- Day number of 1960-01-01 (the epoch of this model). -/
def epoch1960 : ℤ := 0

/-- Day number of 1970-01-01: ten years, three of them leap. -/
def day1970 : ℤ := 3653

/-- Day number of 2025-12-31 (66 years with 17 leap days, minus one). -/
def day2025end : ℤ := 24106

/-- `pd.date_range('1960-01-01', periods=len(df), freq='D')` as used by
`create_plot` in `plot_1960_2025.py` and `download_and_plot.py` when no
date column was identified. -/
def synthDatesPlot (n : ℕ) : List ℤ :=
  (List.range n).map (fun i : ℕ => epoch1960 + (i : ℤ))

/-- The synthesized dates of `create_plot` in
`extract_rinihue_streamflow.py` when no date column was identified: the
start is 1960-01-01 only for frames with more than 20000 rows, and
1970-01-01 otherwise. -/
def synthDatesExtract (n : ℕ) : List ℤ :=
  (List.range n).map (fun i : ℕ => (if 20000 < n then epoch1960 else day1970) + (i : ℤ))

/-! ### The plotting window filter -/

/-- Membership of a (possibly missing) timestamp in the inclusive
[1960-01-01, 2025-12-31] window; `NaT` compares false. -/
def inWindow : Option ℤ → Bool
  | none => false
  | some d => decide (0 ≤ d) && decide (d ≤ day2025end)

/-- The boolean mask `(dates >= '1960-01-01') & (dates <= '2025-12-31')`. -/
def windowMask (dates : List (Option ℤ)) : List Bool := dates.map inWindow

/-- `df[mask]` applied to a whole frame. -/
def maskFilterFrame (mask : List Bool) (f : TabularFrame) : TabularFrame :=
  ⟨f.cols.map (fun c => { c with cells := maskFilter mask c.cells })⟩

/-- The window-filtered frame `df[mask]` of `create_plot`. -/
def filterWindowFrame (df : TabularFrame) (dates : List (Option ℤ)) : TabularFrame :=
  maskFilterFrame (windowMask dates) df

/-- The data selection of `create_plot` (`plot_1960_2025.py` lines
126-139, `download_and_plot.py` lines 195-209): if every date is `NaT`
the whole frame is used; otherwise the frame is filtered to the window,
falling back to the whole frame when the filter leaves zero rows. -/
def selectPlotData (df : TabularFrame) (dates : List (Option ℤ)) :
    TabularFrame × List (Option ℤ) :=
  if dates.all (·.isNone) then (df, dates)
  else if nRows (filterWindowFrame df dates) = 0 then (df, dates)
  else (filterWindowFrame df dates, maskFilter (windowMask dates) dates)

/-! ### The delimited-text loader (Format Resolver)

`load_data_from_file` of `extract_rinihue_streamflow.py` tries, via
exception-driven fallthrough, comma-separated UTF-8, comma-separated
Latin-1, tab-separated and whitespace-separated parsing in that order.
A payload is modelled by the outcome each attempt would have. -/

/-- The four parse attempts, in source order. -/
inductive AttemptKind where
  | utf8Comma | latin1Comma | tabSep | wsSep
deriving DecidableEq

/-- The error vocabulary of the Format Resolver. -/
inductive FormatError where
  | unparseable
deriving DecidableEq

/-- A delimited-text payload, abstracted by the outcome (`some` frame
or failure) of each of the four parse attempts on it. -/
structure TextPayload where
  utf8Comma : Option TabularFrame
  latin1Comma : Option TabularFrame
  tabSep : Option TabularFrame
  wsSep : Option TabularFrame

/-- `load_data_from_file` on a text payload, returning the result and
the list of attempts actually performed, in order. -/
def loadDataFromFile (p : TextPayload) :
    Except FormatError TabularFrame × List AttemptKind :=
  match p.utf8Comma with
  | some f => (.ok f, [.utf8Comma])
  | none =>
    match p.latin1Comma with
    | some f => (.ok f, [.utf8Comma, .latin1Comma])
    | none =>
      match p.tabSep with
      | some f => (.ok f, [.utf8Comma, .latin1Comma, .tabSep])
      | none =>
        match p.wsSep with
        | some f => (.ok f, [.utf8Comma, .latin1Comma, .tabSep, .wsSep])
        | none => (.error .unparseable, [.utf8Comma, .latin1Comma, .tabSep, .wsSep])

/-- The delimited-text part of `load_and_process_data` in
`download_and_plot.py` (lines 114-126): `pd.read_csv` under UTF-8, on
any failure `pd.read_csv` under Latin-1, and on failure of that the
outer handler prints the error and returns `None` — the tab-separated
and whitespace-separated attempts of `extract_rinihue_streamflow.py`
are never made. -/
def loadDownload (p : TextPayload) :
    Except FormatError TabularFrame × List AttemptKind :=
  match p.utf8Comma with
  | some f => (.ok f, [.utf8Comma])
  | none =>
    match p.latin1Comma with
    | some f => (.ok f, [.utf8Comma, .latin1Comma])
    | none => (.error .unparseable, [.utf8Comma, .latin1Comma])

/-! ### The orchestrating `main` functions and their output files -/

/-- How far the acquisition stages got before the tabular stages run. -/
inductive FetchOutcome where
  | fetchFailed
  | loadFailed
  | loaded : TabularFrame → FetchOutcome

/-- Which of the two output files a terminated run has written. -/
structure FileState where
  csvWritten : Bool
  plotWritten : Bool
deriving DecidableEq

/-- Whether the statistics box of `create_plot` can be formatted: the
f-strings `f"{df_plot[col].min():.2f}"` (and max/mean) require a
numeric minimum, so they succeed exactly when the plotted value column
has no text cells — a text minimum makes the `.2f` format raise
`ValueError`, and a text/number mixture already raises inside `min`.
A column of numbers and missing values (even all-missing or empty,
whose minimum is `nan`) formats fine. -/
def statsFormatOk (cells : List Cell) : Bool :=
  !(cells.any isStr)

/-- Whether `create_plot` reaches `savefig`: the statistics box, built
before the figure is saved, must format on the value column of the
selected (window-filtered or fallback) frame.  `dates` is the timestamp
sequence `create_plot` works with — `pd.to_datetime(df[date_col],
errors='coerce')` when a date column was identified, the synthesized
daily range otherwise. -/
def createPlotWrites (df : TabularFrame) (dates : List (Option ℤ)) (col : String) : Bool :=
  statsFormatOk (valueCells (selectPlotData df dates).1 col)

/-- `main()` of `plot_1960_2025.py` as a file-writing trace: failures
before cleaning (no data file, unreadable file, no value column) write
nothing; `clean_data` is total, after it `to_csv` always writes the
CSV, and `create_plot` then saves the chart unless its statistics
formatting raises first — which happens after the CSV exists. -/
def mainPlot : FetchOutcome → List (Option ℤ) → FileState
  | .fetchFailed, _ => ⟨false, false⟩
  | .loadFailed, _ => ⟨false, false⟩
  | .loaded f, dates =>
    match (identifyPlot f).2 with
    | none => ⟨false, false⟩
    | some col =>
      if createPlotWrites (cleanPlot f col) dates col then ⟨true, true⟩
      else ⟨true, false⟩

/-- `main()` of `download_and_plot.py` as a file-writing trace: same
shape as `plot_1960_2025.py` — `to_csv` precedes `create_plot`, whose
statistics box is the only failure point after the CSV is written. -/
def mainDownload : FetchOutcome → List (Option ℤ) → FileState
  | .fetchFailed, _ => ⟨false, false⟩
  | .loadFailed, _ => ⟨false, false⟩
  | .loaded f, dates =>
    match (identifyDownload f).2 with
    | none => ⟨false, false⟩
    | some col =>
      if createPlotWrites (cleanDownload f col) dates col then ⟨true, true⟩
      else ⟨true, false⟩

/-! ### CSV writing and re-parsing (round-trip)

`df_clean.to_csv(OUTPUT_CSV, index=False)` followed by
`pd.read_csv(..., encoding='utf-8')` in `load_data`.  A file is a list
of lines, each a character list; floats are printed as finite decimals
and re-parsed exactly, which is the precision pandas round-trips at. -/

/-- The digit character of a value below ten. -/
def digitChar (d : ℕ) : Char :=
  if d < 10 then Char.ofNat (48 + d) else '*'

/-- The value of a digit character, if it is one. -/
def charDigit (c : Char) : Option ℕ :=
  if 48 ≤ c.toNat ∧ c.toNat ≤ 57 then some (c.toNat - 48) else none

/-- Whether a character is a decimal digit. -/
def isDigitCh (c : Char) : Bool := (charDigit c).isSome

/-- The numeric value of a digit character (0 otherwise). -/
def digitVal (c : Char) : ℕ := (charDigit c).getD 0

/-- Base-10 digits (least significant first) with explicit fuel, so the
kernel can evaluate it. -/
def digitsLE : ℕ → ℕ → List ℕ
  | 0, _ => []
  | fuel + 1, n => if n = 0 then [] else n % 10 :: digitsLE fuel (n / 10)

/-- Base-10 digits of a natural number, least significant first. -/
def natDigits (n : ℕ) : List ℕ := digitsLE n n

/-- Decimal digit characters of a natural number, most significant
first. -/
def natChars (n : ℕ) : List Char :=
  if n = 0 then ['0'] else ((natDigits n).map digitChar).reverse

/-- The `k` least-significant base-10 digits of `m`, least significant
first. -/
def padDigits : ℕ → ℕ → List ℕ
  | _, 0 => []
  | m, k + 1 => m % 10 :: padDigits (m / 10) k

/-- Exactly `k` fractional digit characters for `m < 10^k`, most
significant first (zero padded). -/
def fracChars (m k : ℕ) : List Char :=
  ((padDigits m k).map digitChar).reverse

/-- The smallest exponent `k ≤ den` with `den ∣ 10^k`, when one
exists (0 otherwise). -/
def decExp (q : ℚ) : ℕ :=
  ((List.range (q.den + 1)).find? (fun k => 10 ^ k % q.den == 0)).getD 0

/-- A rational that is exactly representable as a finite decimal — the
class a binary float's printed text always falls in. -/
def DecimalRep (q : ℚ) : Prop := q.den ∣ 10 ^ decExp q

instance (q : ℚ) : Decidable (DecimalRep q) := by
  unfold DecimalRep; infer_instance

/-- A cell that holds a finite-decimal numeric value. -/
def isDecimalNum : Cell → Bool
  | .num q => decide (DecimalRep q)
  | _ => false

/-- The unsigned decimal text of the scaled integer `m` with `k`
fractional digits. -/
def decBodyChars (m k : ℕ) : List Char :=
  if k = 0 then natChars m
  else natChars (m / 10 ^ k) ++ '.' :: fracChars (m % 10 ^ k) k

/-- Finite-decimal text of a rational: sign, integer digits, and — when
the exponent is positive — a point and zero-padded fractional digits. -/
def decString (q : ℚ) : List Char :=
  let k := decExp q
  let n : ℤ := q.num * ((10 ^ k) / q.den : ℕ)
  if n < 0 then '-' :: decBodyChars n.natAbs k else decBodyChars n.natAbs k

/-- The text a cell is written as by `to_csv`: missing is empty, numbers
are finite decimals, text is itself. -/
def serializeCell : Cell → List Char
  | .na => []
  | .num q => decString q
  | .str s => s.data

/-- The text content of a text cell (empty otherwise); used to state
comma-freeness hypotheses. -/
def cellText : Cell → List Char
  | .str s => s.data
  | _ => []

/-- Split a character list at every occurrence of `sep`. -/
def splitChar (sep : Char) : List Char → List (List Char)
  | [] => [[]]
  | c :: t =>
    if c = sep then [] :: splitChar sep t
    else
      match splitChar sep t with
      | h :: r => (c :: h) :: r
      | [] => [[c]]

/-- Join pieces with a separator character. -/
def joinChar (sep : Char) : List (List Char) → List Char
  | [] => []
  | [p] => p
  | p :: ps => p ++ sep :: joinChar sep ps

/-- Parse a nonempty all-digit character list, most significant first. -/
def parseNatChars (l : List Char) : Option ℕ :=
  if l.isEmpty then none
  else if l.all isDigitCh then some (Nat.ofDigits 10 ((l.map digitVal).reverse))
  else none

/-- Parse optional-sign decimal text into a rational: `a.b` with `k`
fractional digits denotes `±(a·10^k + b) / 10^k`. -/
def parseDec (l : List Char) : Option ℚ :=
  let neg : Bool := decide (l.head? = some '-')
  let body : List Char := if neg then l.tail else l
  let signed : ℤ → ℤ := fun z => if neg then -z else z
  match splitChar '.' body with
  | [ip] => (parseNatChars ip).map (fun a => mkRat (signed (a : ℤ)) 1)
  | [ip, fp] =>
    match parseNatChars ip, parseNatChars fp with
    | some a, some b =>
      some (mkRat (signed ((a : ℤ) * 10 ^ fp.length + (b : ℤ))) (10 ^ fp.length))
    | _, _ => none
  | _ => none

/-- Reading one field back: empty is missing, decimal text is numeric,
anything else is text — pandas' per-cell type inference. -/
def parseCell (l : List Char) : Cell :=
  if l.isEmpty then .na
  else
    match parseDec l with
    | some q => .num q
    | none => .str ⟨l⟩

/-- `df.to_csv(index=False)`: a header line of column names, then one
comma-joined line per row. -/
def writeCsv (f : TabularFrame) : List (List Char) :=
  joinChar ',' (f.cols.map (fun c => c.name.data)) ::
    (List.range (nRows f)).map (fun i =>
      joinChar ',' (f.cols.map (fun c => serializeCell ((c.cells.get? i).getD .na))))

/-- One reconstructed column: cell `j` of every parsed row; dtype is
numeric when no cell stays text. -/
def buildCol (rows : List (List Cell)) (nameChars : List Char) (j : ℕ) : Col :=
  ⟨⟨nameChars⟩, (rows.map (fun r => (r.get? j).getD Cell.na)).all (fun c => !isStr c),
    rows.map (fun r => (r.get? j).getD Cell.na)⟩

/-- `pd.read_csv` on comma-separated lines: the first line names the
columns, later lines are split into cells; a column's dtype is numeric
when no cell stays text. -/
def parseCsv (lines : List (List Char)) : TabularFrame :=
  match lines with
  | [] => ⟨[]⟩
  | h :: rest =>
    let names := splitChar ',' h
    let rows := rest.map (fun line => (splitChar ',' line).map parseCell)
    ⟨(List.range names.length).map (fun j =>
      buildCol rows ((names.get? j).getD []) j)⟩

/-- The cleaned end-to-end scenario frame, used as round-trip witness. -/
def demoCleaned : TabularFrame := cleanFrame demoFrame "caudal_m3s"

/-- Parsed timestamps all outside the plotting window (or missing). -/
def demoDates : List (Option ℤ) := [some (-3), some 30000, none, some (-1)]

/-- A payload whose UTF-8 comma attempt fails (decode error) but whose
Latin-1 comma attempt parses. -/
def demoPayload : TextPayload := ⟨none, some demoFrame, none, none⟩

/-- A payload both comma attempts fail on but whose tab-separated
attempt would parse. -/
def demoTabPayload : TextPayload := ⟨none, none, some demoFrame, none⟩

/-- The date column of the 4-row scenario frame. -/
def fechaCol : Col :=
  ⟨"fecha", false,
    [.str "1961-01-01", .str "1961-01-02", .str "1961-01-03", .str "1961-01-04"]⟩

/-- A frame whose name-matched value column (`quality` contains `q`)
holds text, not numbers. -/
def demoQuality : TabularFrame :=
  ⟨[⟨"fecha", false, [.str "1961-01-01"]⟩,
    ⟨"quality", false, [.str "good"]⟩]⟩

/-- The parsed timestamp of `demoQuality`, inside the window. -/
def demoQualityDates : List (Option ℤ) := [some 366]

/-! ## Helper lemmas -/

theorem isNA_iff {c : Cell} : isNA c = true ↔ c = .na := by
  cases c <;> simp [isNA]

theorem maskFilter_sublist (m : List Bool) (l : List α) :
    List.Sublist (maskFilter m l) l := by
  induction m generalizing l with
  | nil => cases l <;> simp [maskFilter]
  | cons b bs ih =>
    cases l with
    | nil => simp [maskFilter]
    | cons a as =>
      by_cases hb : b
      · simpa [maskFilter, hb] using (ih as).cons₂ a
      · simpa [maskFilter, hb] using (ih as).cons a

theorem maskFilter_length_le (m : List Bool) (l : List α) :
    (maskFilter m l).length ≤ l.length :=
  (maskFilter_sublist m l).length_le

theorem maskFilter_map_self (p : α → Bool) (l : List α) :
    maskFilter (l.map p) l = l.filter p := by
  induction l with
  | nil => rfl
  | cons a as ih =>
    by_cases hp : p a <;> simp [maskFilter, List.filter, hp, ih]

theorem maskFilter_all_true (m : List Bool) (l : List α)
    (hm : ∀ b ∈ m, b = true) (hl : l.length ≤ m.length) : maskFilter m l = l := by
  induction m generalizing l with
  | nil => cases l with
    | nil => rfl
    | cons a as => simp at hl
  | cons b bs ih =>
    cases l with
    | nil => simp [maskFilter]
    | cons a as =>
      have hb : b = true := hm b (by simp)
      simp only [maskFilter, hb, if_true]
      exact congrArg (a :: ·) (ih as (fun x hx => hm x (by simp [hx])) (by simpa using hl))

theorem maskFilter_all_false (m : List Bool) (l : List α)
    (hm : ∀ b ∈ m, b = false) : maskFilter m l = [] := by
  induction m generalizing l with
  | nil => cases l <;> rfl
  | cons b bs ih =>
    cases l with
    | nil => rfl
    | cons a as =>
      have hb : b = false := hm b (by simp)
      simp only [maskFilter, hb, Bool.false_eq_true, if_false]
      exact ih as (fun x hx => hm x (by simp [hx]))

theorem find?_map_col (g : Col → Col) (hg : ∀ c, (g c).name = c.name)
    (l : List Col) (col : String) :
    (l.map g).find? (fun c => c.name == col) =
      (l.find? (fun c => c.name == col)).map g := by
  induction l with
  | nil => rfl
  | cons a as ih =>
    by_cases h : a.name == col
    · simp [List.find?, hg, h]
    · simp only [List.map, List.find?, hg, h]
      exact ih

/-! ### Fill machinery lemmas -/

theorem ffillGo_cons (carry a : Cell) (t : List Cell) :
    ffillGo carry (a :: t) =
      if isNA a then carry :: ffillGo carry t else a :: ffillGo a t := rfl

theorem ffillGo_length (carry : Cell) (l : List Cell) :
    (ffillGo carry l).length = l.length := by
  induction l generalizing carry with
  | nil => rfl
  | cons a as ih =>
    by_cases ha : isNA a <;> simp [ffillGo, ha, ih]

theorem ffill_length (l : List Cell) : (ffill l).length = l.length :=
  ffillGo_length _ l

theorem bfill_length (l : List Cell) : (bfill l).length = l.length := by
  simp [bfill, ffill_length]

theorem ffillGo_all_valid (l : List Cell) (carry : Cell)
    (hc : isNA carry = false) : ∀ c ∈ ffillGo carry l, isNA c = false := by
  induction l generalizing carry with
  | nil => simp [ffillGo]
  | cons a as ih =>
    by_cases ha : isNA a
    · simp only [ffillGo, ha, if_true]
      intro c hc'
      rcases List.mem_cons.mp hc' with h | h
      · exact h ▸ hc
      · exact ih carry hc c h
    · simp only [ffillGo, ha, Bool.false_eq_true, if_false]
      intro c hc'
      rcases List.mem_cons.mp hc' with h | h
      · exact h ▸ (by simpa using ha)
      · exact ih a (by simpa using ha) c h

theorem ffillGo_all_na (l : List Cell) (hl : ∀ c ∈ l, isNA c = true) :
    ffillGo .na l = l := by
  induction l with
  | nil => rfl
  | cons a as ih =>
    have ha : isNA a = true := hl a (by simp)
    have ha' : a = .na := isNA_iff.mp ha
    simp only [ffillGo, ha, if_true]
    rw [ih (fun c hc => hl c (by simp [hc])), ha']

theorem ffillGo_last_valid (l : List Cell) : ∀ carry : Cell, l ≠ [] →
    (isNA carry = false ∨ ∃ c ∈ l, isNA c = false) →
    ∃ ds d, ffillGo carry l = ds ++ [d] ∧ isNA d = false := by
  induction l with
  | nil => intro carry h; exact absurd rfl h
  | cons a rest ih =>
    intro carry _ hv
    cases rest with
    | nil =>
      by_cases ha : isNA a
      · have hcv : isNA carry = false := by
          rcases hv with h | ⟨c, hc, hcv⟩
          · exact h
          · have : c = a := by simpa using hc
            rw [this] at hcv
            exact absurd ha (by simp [hcv])
        exact ⟨[], carry, by simp [ffillGo, ha], hcv⟩
      · exact ⟨[], a, by simp [ffillGo, ha], by simpa using ha⟩
    | cons b rest2 =>
      by_cases ha : isNA a
      · have hv' : isNA carry = false ∨ ∃ c ∈ b :: rest2, isNA c = false := by
          rcases hv with h | ⟨c, hc, hcv⟩
          · exact Or.inl h
          · rcases List.mem_cons.mp hc with h | h
            · rw [h] at hcv
              exact absurd ha (by simp [hcv])
            · exact Or.inr ⟨c, h, hcv⟩
        obtain ⟨ds, d, heq, hdv⟩ := ih carry (by simp) hv'
        refine ⟨carry :: ds, d, ?_, hdv⟩
        rw [ffillGo_cons, if_pos ha, heq]
        simp
      · obtain ⟨ds, d, heq, hdv⟩ := ih a (by simp) (Or.inl (by simpa using ha))
        refine ⟨a :: ds, d, ?_, hdv⟩
        rw [ffillGo_cons, if_neg ha, heq]
        simp

theorem ffill_cons_valid (a : Cell) (t : List Cell) (ha : isNA a = false) :
    ∀ c ∈ ffill (a :: t), isNA c = false := by
  intro c hc
  simp only [ffill, ffillGo, ha, Bool.false_eq_true, if_false] at hc
  rcases List.mem_cons.mp hc with h | h
  · exact h ▸ ha
  · exact ffillGo_all_valid t a ha c h

theorem bfill_ffill_all_valid (l : List Cell) (hv : ∃ c ∈ l, isNA c = false) :
    ∀ c ∈ bfill (ffill l), isNA c = false := by
  have hne : l ≠ [] := by
    rcases hv with ⟨c, hc, _⟩
    exact List.ne_nil_of_mem hc
  obtain ⟨ds, d, heq, hdv⟩ := ffillGo_last_valid l .na hne (Or.inr hv)
  intro c hc
  simp only [bfill] at hc
  rw [List.mem_reverse] at hc
  have hrev : (ffill l).reverse = d :: ds.reverse := by
    show (ffillGo .na l).reverse = d :: ds.reverse
    rw [heq]
    simp
  rw [hrev] at hc
  exact ffill_cons_valid d ds.reverse hdv c hc

theorem all_valid_of_head_valid (l : List Cell) (a : Cell) (t : List Cell)
    (hl : l = a :: t) (ha : isNA a = false) :
    ∀ c ∈ bfill (ffill l), isNA c = false :=
  bfill_ffill_all_valid l ⟨a, by simp [hl], ha⟩

theorem interpolate_length (l : List Cell) : (interpolate l).length = l.length := by
  simp [interpolate]

theorem fillColumn_length (l : List Cell) : (fillColumn l).length = l.length := by
  unfold fillColumn
  by_cases h : (bfill (ffill l)).any isNA <;>
    simp [h, interpolate_length, bfill_length, ffill_length]

theorem fillColumn_of_some_valid (l : List Cell) (hv : ∃ c ∈ l, isNA c = false) :
    fillColumn l = bfill (ffill l) ∧ ∀ c ∈ fillColumn l, isNA c = false := by
  have hall := bfill_ffill_all_valid l hv
  have hany : (bfill (ffill l)).any isNA = false := by
    rw [List.any_eq_false]
    intro c hc
    simp [hall c hc]
  unfold fillColumn
  rw [hany]
  exact ⟨by simp, by simpa using hall⟩

/-! ### Identification helper lemmas -/

theorem isValueNameL_excluded : ∀ L ∈ excludeNames, isValueNameL L = false := by
  decide

theorem head?_filter_not_excluded (l : List String) (c : String)
    (h : (l.filter (fun nm => !(excludeNames.contains (lowerL nm)))).head? = some c) :
    lowerL c ∉ excludeNames := by
  have hmem : c ∈ l.filter (fun nm => !(excludeNames.contains (lowerL nm))) := by
    cases hl : l.filter (fun nm => !(excludeNames.contains (lowerL nm))) with
    | nil => rw [hl] at h; simp at h
    | cons x xs =>
      rw [hl] at h
      simp only [List.head?] at h
      injection h with h'
      rw [← h']
      exact List.mem_cons_self x xs
  have hp := (List.mem_filter.mp hmem).2
  intro hcmem
  have hcontains : excludeNames.contains (lowerL c) = true :=
    List.elem_iff.mpr hcmem
  rw [hcontains] at hp
  simp at hp

/-! ### Date-synthesis helper -/

theorem synthRange_get? (s : ℤ) (n i : ℕ) (h : i < n) :
    (((List.range n).map (fun j : ℕ => s + (j : ℤ))).get? i) = some (s + (i : ℤ)) := by
  rw [List.get?_map, List.get?_range h]
  rfl

/-! ## Claim theorems -/

/-- C1 (counterexample): on the 4-row `fecha,caudal_m3s` payload the
cleaner does not return the spec's values `[12.5, 12.5, 13.25, 14.0]`:
forward fill reaches the second gap before interpolation ever runs. -/
theorem clean_demo_not_spec_values :
    valueCells (cleanFrame demoFrame "caudal_m3s") "caudal_m3s" ≠
      [.num q125, .num q125, .num q1325, .num q14] := by
  decide

/-- C1 (amended): on the 4-row `fecha,caudal_m3s` payload, column
identification selects `fecha` and `caudal_m3s`, and cleaning returns
the value column `[12.5, 12.5, 12.5, 14.0]` — the interior gap is
closed by forward fill, not interpolation — with zero rows dropped. -/
theorem clean_demo_values :
    valueCells (cleanFrame demoFrame "caudal_m3s") "caudal_m3s" =
      [.num q125, .num q125, .num q125, .num q14]
  ∧ nRows (cleanFrame demoFrame "caudal_m3s") = 4
  ∧ identifyPlot demoFrame = (some "fecha", some "caudal_m3s") :=
  ⟨by decide, by decide, by decide⟩

/-- C2 (counterexample): `identify_columns` of `download_and_plot.py`
on the `longitud, latitud, valor` frame returns the coordinate-named
column `longitud` even though `valor`, a non-coordinate numeric column,
is available — its term list lacks `valor` and its numeric fallback has
no coordinate exclusion. -/
theorem identify_download_picks_longitud :
    (identifyDownload demoGeo).2 = some "longitud"
  ∧ (identifyDownload demoGeo).2 ≠ some "valor"
  ∧ (demoGeo.cols.filter (·.numeric)).map (·.name) = ["longitud", "latitud", "valor"] := by
  refine ⟨by decide, by decide, by decide⟩

/-- C2 (amended): the `plot_1960_2025.py` column identifier never
returns a column whose lowercased name is a coordinate name (`lon`,
`lat`, `latitud`, `longitud`, `x`, `y`) — not even as the only numeric
column — and on the `longitud, latitud, valor` frame it returns
`valor`.  The `download_and_plot.py` variant does not satisfy this. -/
theorem identify_plot_no_coordinate :
    (∀ (f : TabularFrame) (c : String),
        (identifyPlot f).2 = some c → lowerL c ∉ excludeNames)
  ∧ (identifyPlot demoGeo).2 = some "valor" := by
  constructor
  · intro f c h hmem
    simp only [identifyPlot] at h
    cases hb : f.cols.find? (fun col => isValueNamePlot col.name) with
    | some col =>
      rw [hb] at h
      simp only [Option.map_some'] at h
      have hc : col.name = c := by simpa using h
      have hval : isValueNamePlot col.name = true := by
        simpa using List.find?_some hb
      rw [hc] at hval
      have hfalse := isValueNameL_excluded (lowerL c) hmem
      rw [isValueNamePlot] at hval
      rw [hfalse] at hval
      exact Bool.false_ne_true hval
    | none =>
      rw [hb] at h
      simp only [Option.map_none'] at h
      exact head?_filter_not_excluded _ c h hmem
  · decide

/-- C2 (witness): applying the amended theorem to the concrete
`longitud, latitud, valor` frame. -/
theorem identify_plot_no_coordinate_witness :
    lowerL "valor" ∉ excludeNames :=
  identify_plot_no_coordinate.1 demoGeo "valor" (by decide)

/-- C3 (counterexample): on a 3-row frame with no date column, the
`create_plot` of `extract_rinihue_streamflow.py` synthesizes timestamps
starting at 1970-01-01, not 1960-01-01. -/
theorem synth_extract_small_start_1970 :
    (synthDatesExtract 3).get? 0 ≠ some epoch1960
  ∧ (synthDatesExtract 3).get? 0 = some day1970
  ∧ (synthDatesExtract 3).length = 3 := by
  refine ⟨by decide, by decide, by decide⟩

/-- C3 (amended): with no identified date column, the synthesized
timestamps of `plot_1960_2025.py`/`download_and_plot.py` are strictly
consecutive daily steps starting 1960-01-01 with length equal to the
row count; those of `extract_rinihue_streamflow.py` are strictly
consecutive daily steps of the same length but start 1960-01-01 only
when the frame has more than 20000 rows, and 1970-01-01 otherwise. -/
theorem synth_dates_spec :
    (∀ n, (synthDatesPlot n).length = n)
  ∧ (∀ n i, i + 1 < n →
      (synthDatesPlot n).get? (i + 1) = ((synthDatesPlot n).get? i).map (· + 1))
  ∧ (∀ n, 0 < n → (synthDatesPlot n).get? 0 = some epoch1960)
  ∧ (∀ n, (synthDatesExtract n).length = n)
  ∧ (∀ n i, i + 1 < n →
      (synthDatesExtract n).get? (i + 1) = ((synthDatesExtract n).get? i).map (· + 1))
  ∧ (∀ n, 20000 < n → (synthDatesExtract n).get? 0 = some epoch1960)
  ∧ (∀ n, 0 < n → n ≤ 20000 → (synthDatesExtract n).get? 0 = some day1970) := by
  refine ⟨?_, ?_, ?_, ?_, ?_, ?_, ?_⟩
  · intro n; simp [synthDatesPlot]
  · intro n i h
    rw [synthDatesPlot, synthRange_get? _ _ _ h,
      synthRange_get? _ _ _ (Nat.lt_of_succ_lt h)]
    simp only [Option.map_some']
    congr 1
  · intro n h
    rw [synthDatesPlot, synthRange_get? _ _ 0 h]
    decide
  · intro n; simp [synthDatesExtract]
  · intro n i h
    rw [synthDatesExtract, synthRange_get? _ _ _ h,
      synthRange_get? _ _ _ (Nat.lt_of_succ_lt h)]
    simp only [Option.map_some']
    congr 1
    push_cast
    ring
  · intro n h
    rw [synthDatesExtract, synthRange_get? _ _ 0 (by omega)]
    simp [h, epoch1960]
  · intro n h h20
    rw [synthDatesExtract, synthRange_get? _ _ 0 h]
    have : ¬(20000 < n) := by omega
    simp [this]

/-- C3 (witness): the amended theorem at concrete sizes — a 5-row plot
synthesis starts at day 0 and steps by one day, and a 3-row extract
synthesis starts at 1970-01-01. -/
theorem synth_dates_spec_witness :
    (synthDatesPlot 5).get? 0 = some epoch1960
  ∧ (synthDatesPlot 5).get? 2 = ((synthDatesPlot 5).get? 1).map (· + 1)
  ∧ (synthDatesExtract 3).get? 0 = some day1970 :=
  ⟨synth_dates_spec.2.2.1 5 (by decide),
   synth_dates_spec.2.1 5 1 (by decide),
   synth_dates_spec.2.2.2.2.2.2 3 (by decide) (by decide)⟩

/-- C4 (counterexample): with a name-matched text value column
(`quality` contains `q`), both `main()` variants identify the column,
clean it (strings have no missing values, so the frame is unchanged),
write the cleaned CSV via `to_csv`, and then `create_plot` raises
`ValueError` formatting `f"{min():.2f}"` on the string minimum before
`savefig` — a terminating run that writes exactly one of the two
output files. -/
theorem main_partial_output :
    mainPlot (.loaded demoQuality) demoQualityDates = ⟨true, false⟩
  ∧ mainDownload (.loaded demoQuality) demoQualityDates = ⟨true, false⟩
  ∧ (mainPlot (.loaded demoQuality) demoQualityDates).csvWritten
      ≠ (mainPlot (.loaded demoQuality) demoQualityDates).plotWritten := by
  decide

/-- C4 (amended): no run writes the chart without the cleaned CSV — a
failure before cleaning writes neither file, and `to_csv` precedes
`create_plot` — and whenever `create_plot`'s statistics box formats
(the plotted value column has no text cells) both files are written;
a run writing exactly one file writes only the CSV. -/
theorem main_chart_implies_csv :
    ∀ (o : FetchOutcome) (dates : List (Option ℤ)),
      ((mainPlot o dates).plotWritten = true → (mainPlot o dates).csvWritten = true)
    ∧ ((mainDownload o dates).plotWritten = true →
        (mainDownload o dates).csvWritten = true)
    ∧ (∀ f col, o = .loaded f → (identifyPlot f).2 = some col →
        createPlotWrites (cleanPlot f col) dates col = true →
          mainPlot o dates = ⟨true, true⟩)
    ∧ (∀ f col, o = .loaded f → (identifyDownload f).2 = some col →
        createPlotWrites (cleanDownload f col) dates col = true →
          mainDownload o dates = ⟨true, true⟩) := by
  intro o dates
  cases o with
  | fetchFailed =>
    exact ⟨fun h => h, fun h => h,
      fun f col heq _ _ => FetchOutcome.noConfusion heq,
      fun f col heq _ _ => FetchOutcome.noConfusion heq⟩
  | loadFailed =>
    exact ⟨fun h => h, fun h => h,
      fun f col heq _ _ => FetchOutcome.noConfusion heq,
      fun f col heq _ _ => FetchOutcome.noConfusion heq⟩
  | loaded g =>
    refine ⟨?_, ?_, ?_, ?_⟩
    · simp only [mainPlot]
      split
      · exact fun h => h
      · split <;> exact fun _ => rfl
    · simp only [mainDownload]
      split
      · exact fun h => h
      · split <;> exact fun _ => rfl
    · intro f col heq hid hok
      injection heq with hf
      subst hf
      simp [mainPlot, hid, hok]
    · intro f col heq hid hok
      injection heq with hf
      subst hf
      simp [mainDownload, hid, hok]

/-- C4 (witness): a run on the 4-row numeric scenario frame writes
both files — the identification, formatting and main hypotheses are
discharged by evaluation. -/
theorem main_chart_implies_csv_witness :
    mainPlot (.loaded demoFrame) demoDates = ⟨true, true⟩ :=
  (main_chart_implies_csv (.loaded demoFrame) demoDates).2.2.1 demoFrame "caudal_m3s"
    rfl (by decide) (by decide)

/-- C5 (counterexample): a payload that only the tab-separated attempt
parses: the `extract_rinihue_streamflow.py` loader reaches the third
attempt and succeeds, but the `download_and_plot.py` loader the claim
also cites has already given up after the two comma attempts, so the
four-attempt chain does not hold of `load_and_process_data`. -/
theorem load_download_stops_after_two :
    demoTabPayload.tabSep = some demoFrame
  ∧ loadDownload demoTabPayload = (.error .unparseable, [.utf8Comma, .latin1Comma])
  ∧ (loadDataFromFile demoTabPayload).1 = .ok demoFrame :=
  ⟨rfl, rfl, rfl⟩

/-- C5 (amended): `load_data_from_file` of
`extract_rinihue_streamflow.py` attempts comma-separated UTF-8, then
comma-separated Latin-1, then tab-separated, then whitespace-separated,
in that fixed order; the first success is returned and stops the chain,
and the unparseable error is raised exactly when all four attempts
fail.  `load_and_process_data` of `download_and_plot.py` performs only
the first two attempts, in the same order with the same short-circuit,
and fails after comma/Latin-1 without ever attempting tab- or
whitespace-separated parsing. -/
theorem load_attempts_fixed_order :
    ∀ p : TextPayload,
      ((loadDataFromFile p).1 = .error .unparseable ↔
        p.utf8Comma = none ∧ p.latin1Comma = none ∧ p.tabSep = none ∧ p.wsSep = none)
    ∧ (∀ f, p.utf8Comma = some f →
        loadDataFromFile p = (.ok f, [.utf8Comma]))
    ∧ (p.utf8Comma = none → ∀ f, p.latin1Comma = some f →
        loadDataFromFile p = (.ok f, [.utf8Comma, .latin1Comma]))
    ∧ (p.utf8Comma = none → p.latin1Comma = none → ∀ f, p.tabSep = some f →
        loadDataFromFile p = (.ok f, [.utf8Comma, .latin1Comma, .tabSep]))
    ∧ (p.utf8Comma = none → p.latin1Comma = none → p.tabSep = none →
        ∀ f, p.wsSep = some f →
          loadDataFromFile p = (.ok f, [.utf8Comma, .latin1Comma, .tabSep, .wsSep]))
    ∧ List.IsPrefix (loadDataFromFile p).2
        [.utf8Comma, .latin1Comma, .tabSep, .wsSep]
    ∧ (∀ f, p.utf8Comma = some f →
        loadDownload p = (.ok f, [.utf8Comma]))
    ∧ (p.utf8Comma = none → ∀ f, p.latin1Comma = some f →
        loadDownload p = (.ok f, [.utf8Comma, .latin1Comma]))
    ∧ ((loadDownload p).1 = .error .unparseable ↔
        p.utf8Comma = none ∧ p.latin1Comma = none)
    ∧ AttemptKind.tabSep ∉ (loadDownload p).2
    ∧ AttemptKind.wsSep ∉ (loadDownload p).2 := by
  intro p
  rcases p with ⟨u, la, t, w⟩
  refine ⟨?_, ?_, ?_, ?_, ?_, ?_, ?_, ?_, ?_, ?_, ?_⟩ <;>
    cases u <;> cases la <;> cases t <;> cases w <;>
      first
        | exact ⟨_, rfl⟩
        | simp [loadDataFromFile, loadDownload]

/-- C5 (witness): a payload that fails UTF-8 comma parsing and succeeds
under Latin-1 is loaded by the second attempt, with exactly the first
two attempts made. -/
theorem load_attempts_fixed_order_witness :
    loadDataFromFile demoPayload = (.ok demoFrame, [.utf8Comma, .latin1Comma]) :=
  (load_attempts_fixed_order demoPayload).2.2.1 rfl demoFrame rfl

/-- C6: `clean_data` never fails: both cited variants are total, and
the empty frame is handled gracefully.  In `plot_1960_2025.py` the
report line's `missing_count/len(df_clean)` divides a numpy integer,
so on a zero-row frame it prints a `nan` percentage (with a runtime
warning) instead of raising; both variants return the empty frame
unchanged, and on every input the plot variant performs exactly the
shared fill-and-drop. -/
theorem clean_never_fails :
    cleanPlot emptyFrame "caudal_m3s" = emptyFrame
  ∧ cleanDownload emptyFrame "caudal_m3s" = emptyFrame
  ∧ (∀ (f : TabularFrame) (col : String),
      cleanPlot f col = cleanFrame f col ∧ cleanDownload f col = cleanFrame f col) :=
  ⟨rfl, rfl, fun _ _ => ⟨rfl, rfl⟩⟩

/-- C10: in `create_plot`, if the [1960-01-01, 2025-12-31] window
filter would leave zero rows the whole frame and full timestamp
sequence are used instead, and the filtered frame is used only when at
least one row survives. -/
theorem plot_window_fallback :
    ∀ (df : TabularFrame) (dates : List (Option ℤ)),
      (nRows (filterWindowFrame df dates) = 0 →
        selectPlotData df dates = (df, dates))
    ∧ (selectPlotData df dates = (df, dates) ∨
        selectPlotData df dates =
          (filterWindowFrame df dates, maskFilter (windowMask dates) dates))
    ∧ (nRows (filterWindowFrame df dates) ≠ 0 →
        selectPlotData df dates =
          (filterWindowFrame df dates, maskFilter (windowMask dates) dates)) := by
  intro df dates
  by_cases h1 : dates.all (·.isNone)
  · have h0 : nRows (filterWindowFrame df dates) = 0 := by
      have hmask : ∀ b ∈ windowMask dates, b = false := by
        intro b hb
        simp only [windowMask, List.mem_map] at hb
        obtain ⟨d, hd, rfl⟩ := hb
        have hdn : d.isNone = true := by simpa using List.all_eq_true.mp h1 d hd
        have hdd : d = none := Option.isNone_iff_eq_none.mp hdn
        rw [hdd]
        rfl
      cases hcols : df.cols with
      | nil => simp [filterWindowFrame, maskFilterFrame, nRows, hcols]
      | cons c rest =>
        simp [filterWindowFrame, maskFilterFrame, nRows, hcols,
          maskFilter_all_false _ _ hmask]
    exact ⟨fun _ => by simp [selectPlotData, h1],
      Or.inl (by simp [selectPlotData, h1]),
      fun hne => absurd h0 hne⟩
  · by_cases h2 : nRows (filterWindowFrame df dates) = 0
    · exact ⟨fun _ => by simp [selectPlotData, h1, h2],
        Or.inl (by simp [selectPlotData, h1, h2]),
        fun hne => absurd h2 hne⟩
    · exact ⟨fun h => absurd h h2,
        Or.inr (by simp [selectPlotData, h1, h2]),
        fun _ => by simp [selectPlotData, h1, h2]⟩

/-- C10 (witness): with every timestamp outside the window (or
missing), the filter would leave zero rows and `create_plot` falls back
to the whole frame and full timestamp sequence. -/
theorem plot_window_fallback_witness :
    selectPlotData demoFrame demoDates = (demoFrame, demoDates) :=
  (plot_window_fallback demoFrame demoDates).1 (by decide)

/-! ### Cleaner branch equations -/

theorem cleanFrame_of_no_missing (f : TabularFrame) (col : String)
    (h : (valueCells f col).any isNA = false) : cleanFrame f col = f := by
  simp [cleanFrame, h]

theorem cleanFrame_of_missing (f : TabularFrame) (col : String)
    (h : (valueCells f col).any isNA = true) :
    cleanFrame f col =
      ⟨f.cols.map (cleanCol col (fillColumn (valueCells f col))
        ((fillColumn (valueCells f col)).map (fun x => !isNA x)))⟩ := by
  simp [cleanFrame, h]

theorem cleanCol_name (col : String) (fi : List Cell) (ma : List Bool) (c : Col) :
    (cleanCol col fi ma c).name = c.name := by
  unfold cleanCol
  split <;> rfl

theorem cleanCol_cells_pos (col : String) (fi : List Cell) (ma : List Bool) (c : Col)
    (h : (c.name == col) = true) : (cleanCol col fi ma c).cells = maskFilter ma fi := by
  simp [cleanCol, h]

theorem cleanCol_cells_neg (col : String) (fi : List Cell) (ma : List Bool) (c : Col)
    (h : (c.name == col) = false) :
    (cleanCol col fi ma c).cells = maskFilter ma c.cells := by
  simp [cleanCol, h]

theorem nRows_of_cols_nil (f : TabularFrame) (h : f.cols = []) : nRows f = 0 := by
  unfold nRows
  rw [h]

theorem nRows_of_cols_cons (f : TabularFrame) (c : Col) (rest : List Col)
    (h : f.cols = c :: rest) : nRows f = c.cells.length := by
  unfold nRows
  rw [h]

theorem valueCells_of_find? (f : TabularFrame) (col : String) (c : Col)
    (h : f.cols.find? (fun c => c.name == col) = some c) :
    valueCells f col = c.cells := by
  simp [valueCells, h]

/-- C7: for every frame and value column, the cleaned frame has the
same column names, at most as many rows, no missing value-column
entries, and every column of the output is (positionally) a
name-preserving sublist of the corresponding input column — of its
filled version for the value column — so surviving rows keep their
relative order; and the `plot_1960_2025.py` cleaner returns exactly
that cleaned frame. -/
theorem clean_invariants :
    ∀ (f : TabularFrame) (col : String),
      colNames (cleanFrame f col) = colNames f
    ∧ nRows (cleanFrame f col) ≤ nRows f
    ∧ (∀ c ∈ valueCells (cleanFrame f col) col, isNA c = false)
    ∧ (∀ i c₀ c₁, f.cols.get? i = some c₀ →
        (cleanFrame f col).cols.get? i = some c₁ →
          c₁.name = c₀.name ∧
            (List.Sublist c₁.cells c₀.cells ∨
              List.Sublist c₁.cells (fillColumn (valueCells f col))))
    ∧ cleanPlot f col = cleanFrame f col := by
  intro f col
  by_cases hmiss : (valueCells f col).any isNA = true
  · refine ⟨?_, ?_, ?_, ?_, rfl⟩
    · rw [cleanFrame_of_missing f col hmiss]
      simp only [colNames]
      rw [List.map_map]
      apply List.map_congr_left
      intro c _
      exact cleanCol_name col _ _ c
    · rw [cleanFrame_of_missing f col hmiss]
      cases hcols : f.cols with
      | nil => simp [nRows]
      | cons c0 rest =>
        have h1 : nRows ⟨(c0 :: rest).map (cleanCol col (fillColumn (valueCells f col))
            ((fillColumn (valueCells f col)).map (fun x => !isNA x)))⟩ =
            (cleanCol col (fillColumn (valueCells f col))
              ((fillColumn (valueCells f col)).map (fun x => !isNA x)) c0).cells.length := rfl
        rw [h1, nRows_of_cols_cons f c0 rest hcols]
        by_cases h0 : (c0.name == col) = true
        · rw [cleanCol_cells_pos col _ _ c0 h0]
          have hv : valueCells f col = c0.cells := by
            apply valueCells_of_find? f col c0
            rw [hcols]
            exact List.find?_cons_of_pos _ h0
          calc (maskFilter _ (fillColumn (valueCells f col))).length
              ≤ (fillColumn (valueCells f col)).length := maskFilter_length_le _ _
            _ = c0.cells.length := by rw [fillColumn_length, hv]
        · rw [cleanCol_cells_neg col _ _ c0 (by simpa using h0)]
          exact maskFilter_length_le _ _
    · cases hfind : f.cols.find? (fun c => c.name == col) with
      | none =>
        have hnil : valueCells f col = [] := by simp [valueCells, hfind]
        rw [hnil] at hmiss
        simp at hmiss
      | some col0 =>
        have hname : (col0.name == col) = true := by
          simpa using List.find?_some hfind
        intro c hc
        rw [cleanFrame_of_missing f col hmiss] at hc
        rw [valueCells, find?_map_col _ (cleanCol_name col _ _) f.cols col, hfind] at hc
        simp only [Option.map_some', Option.getD_some] at hc
        rw [cleanCol_cells_pos col _ _ col0 hname, maskFilter_map_self] at hc
        have := (List.mem_filter.mp hc).2
        simpa using this
    · intro i c₀ c₁ h0 h1
      rw [cleanFrame_of_missing f col hmiss] at h1
      rw [List.get?_map, h0] at h1
      simp only [Option.map_some'] at h1
      injection h1 with h'
      rw [← h']
      refine ⟨cleanCol_name col _ _ c₀, ?_⟩
      by_cases hn : (c₀.name == col) = true
      · rw [cleanCol_cells_pos col _ _ c₀ hn]
        exact Or.inr (maskFilter_sublist _ _)
      · rw [cleanCol_cells_neg col _ _ c₀ (by simpa using hn)]
        exact Or.inl (maskFilter_sublist _ _)
  · have hf : (valueCells f col).any isNA = false := by simpa using hmiss
    rw [cleanFrame_of_no_missing f col hf]
    refine ⟨rfl, le_refl _, ?_, ?_, ?_⟩
    · intro c hc
      simpa using List.any_eq_false.mp hf c hc
    · intro i c₀ c₁ h0 h1
      rw [h0] at h1
      injection h1 with h'
      rw [← h']
      exact ⟨rfl, Or.inl (List.Sublist.refl _)⟩
    · exact cleanFrame_of_no_missing f col hf

/-- C7 (witness): the positional invariant applied to the concrete
4-row scenario frame at its date column, which survives cleaning
unchanged; both frame-lookup hypotheses are discharged by
evaluation. -/
theorem clean_invariants_witness :
    fechaCol.name = fechaCol.name
  ∧ (List.Sublist fechaCol.cells fechaCol.cells ∨
      List.Sublist fechaCol.cells (fillColumn (valueCells demoFrame "caudal_m3s"))) :=
  (clean_invariants demoFrame "caudal_m3s").2.2.2.1 0 fechaCol fechaCol (by decide)
    (by decide)

/-- C8: if the value column's first and last entries are present (all
gaps are interior), cleaning preserves the exact row count and leaves
no missing values: forward fill alone closes every gap, so no row is
dropped. -/
theorem clean_interior_gaps :
    ∀ (f : TabularFrame) (col : String),
      WellFormed f →
      isNA ((valueCells f col).head?.getD Cell.na) = false →
      isNA ((valueCells f col).getLast?.getD Cell.na) = false →
      nRows (cleanFrame f col) = nRows f
    ∧ (∀ c ∈ valueCells (cleanFrame f col) col, isNA c = false) := by
  intro f col hwf hfirst _hlast
  cases hfind : f.cols.find? (fun c => c.name == col) with
  | none =>
    have hv : valueCells f col = [] := by simp [valueCells, hfind]
    rw [hv] at hfirst
    simp [isNA] at hfirst
  | some col0 =>
    have hname : (col0.name == col) = true := by
      simpa using List.find?_some hfind
    have hv : valueCells f col = col0.cells := valueCells_of_find? f col col0 hfind
    have hmem : col0 ∈ f.cols := List.mem_of_find?_eq_some hfind
    have hlen : col0.cells.length = nRows f := hwf col0 hmem
    cases hcell : col0.cells with
    | nil =>
      rw [hv, hcell] at hfirst
      simp [isNA] at hfirst
    | cons a t =>
      have ha : isNA a = false := by
        rw [hv, hcell] at hfirst
        simpa using hfirst
      by_cases hmiss : (valueCells f col).any isNA = true
      · obtain ⟨-, hfv⟩ := fillColumn_of_some_valid (valueCells f col)
          ⟨a, by rw [hv, hcell]; simp, ha⟩
        have hflen : (fillColumn (valueCells f col)).length = nRows f := by
          rw [fillColumn_length, hv, hlen]
        have hmask : ∀ b ∈ (fillColumn (valueCells f col)).map (fun x => !isNA x),
            b = true := by
          intro b hb
          simp only [List.mem_map] at hb
          obtain ⟨c, hcmem, rfl⟩ := hb
          simp [hfv c hcmem]
        have hmlen : ((fillColumn (valueCells f col)).map (fun x => !isNA x)).length
            = nRows f := by
          rw [List.length_map, hflen]
        constructor
        · rw [cleanFrame_of_missing f col hmiss]
          cases hcols : f.cols with
          | nil =>
            rw [hcols] at hmem
            simp at hmem
          | cons c0 rest =>
            have h1 : nRows ⟨(c0 :: rest).map (cleanCol col (fillColumn (valueCells f col))
                ((fillColumn (valueCells f col)).map (fun x => !isNA x)))⟩ =
                (cleanCol col (fillColumn (valueCells f col))
                  ((fillColumn (valueCells f col)).map (fun x => !isNA x)) c0).cells.length := rfl
            rw [h1, nRows_of_cols_cons f c0 rest hcols]
            have hc0len : c0.cells.length = nRows f := hwf c0 (by rw [hcols]; simp)
            by_cases h0 : (c0.name == col) = true
            · rw [cleanCol_cells_pos col _ _ c0 h0,
                maskFilter_all_true _ _ hmask (by simp [hmlen, hflen]), hflen, hc0len]
            · rw [cleanCol_cells_neg col _ _ c0 (by simpa using h0),
                maskFilter_all_true _ _ hmask (by simp [hmlen, hc0len]), hc0len]
        · intro c hc
          rw [cleanFrame_of_missing f col hmiss] at hc
          rw [valueCells, find?_map_col _ (cleanCol_name col _ _) f.cols col, hfind] at hc
          simp only [Option.map_some', Option.getD_some] at hc
          rw [cleanCol_cells_pos col _ _ col0 hname,
            maskFilter_all_true _ _ hmask (by simp [hmlen, hflen])] at hc
          exact hfv c hc
      · have hf : (valueCells f col).any isNA = false := by simpa using hmiss
        rw [cleanFrame_of_no_missing f col hf]
        exact ⟨rfl, fun c hc => by simpa using List.any_eq_false.mp hf c hc⟩

/-- C8 (witness): on the 3-row frame whose value column is
`[10, missing, 14]`, cleaning keeps all 3 rows and leaves no missing
values. -/
theorem clean_interior_gaps_witness :
    nRows (cleanFrame demoInterior "caudal_m3s") = nRows demoInterior :=
  (clean_interior_gaps demoInterior "caudal_m3s" (by decide) (by decide)
    (by decide)).1

/-! ### Split/join and digit lemmas for the CSV round trip -/

theorem splitChar_ne_nil (sep : Char) (l : List Char) : splitChar sep l ≠ [] := by
  induction l with
  | nil => simp [splitChar]
  | cons c t ih =>
    by_cases hc : c = sep
    · simp [splitChar, hc]
    · simp only [splitChar, hc, if_false]
      cases hsp : splitChar sep t with
      | nil => exact absurd hsp ih
      | cons h r => simp

theorem splitChar_no_sep (sep : Char) (p : List Char) (h : sep ∉ p) :
    splitChar sep p = [p] := by
  induction p with
  | nil => rfl
  | cons c t ih =>
    have hc : ¬(c = sep) := fun hcc => h (by simp [hcc])
    have ht : sep ∉ t := fun htt => h (by simp [htt])
    simp only [splitChar, hc, if_false]
    rw [ih ht]

theorem splitChar_append (sep : Char) (p r : List Char) (h : sep ∉ p) :
    splitChar sep (p ++ sep :: r) = p :: splitChar sep r := by
  induction p with
  | nil => simp [splitChar]
  | cons c t ih =>
    have hc : ¬(c = sep) := fun hcc => h (by simp [hcc])
    have ht : sep ∉ t := fun htt => h (by simp [htt])
    show splitChar sep (c :: (t ++ sep :: r)) = (c :: t) :: splitChar sep r
    simp only [splitChar, hc, if_false]
    rw [ih ht]

theorem join_split (sep : Char) (ps : List (List Char)) (hne : ps ≠ [])
    (hp : ∀ p ∈ ps, sep ∉ p) : splitChar sep (joinChar sep ps) = ps := by
  induction ps with
  | nil => exact absurd rfl hne
  | cons p qs ih =>
    cases qs with
    | nil => exact splitChar_no_sep sep p (hp p (by simp))
    | cons q rest =>
      have h1 : joinChar sep (p :: q :: rest) = p ++ sep :: joinChar sep (q :: rest) := rfl
      rw [h1, splitChar_append sep p _ (hp p (by simp))]
      rw [ih (by simp) (fun x hx => hp x (by simp [hx]))]

theorem digitsLE_lt_ten : ∀ (fuel n : ℕ), ∀ d ∈ digitsLE fuel n, d < 10 := by
  intro fuel
  induction fuel with
  | zero => intro n d hd; simp [digitsLE] at hd
  | succ fu ih =>
    intro n d hd
    by_cases hn : n = 0
    · simp [digitsLE, hn] at hd
    · simp only [digitsLE, hn, if_false] at hd
      rcases List.mem_cons.mp hd with h | h
      · rw [h]; exact Nat.mod_lt _ (by norm_num)
      · exact ih _ d h

theorem ofDigits_digitsLE : ∀ (fuel n : ℕ), n ≤ fuel →
    Nat.ofDigits 10 (digitsLE fuel n) = n := by
  intro fuel
  induction fuel with
  | zero =>
    intro n hn
    interval_cases n
    simp [digitsLE, Nat.ofDigits]
  | succ fu ih =>
    intro n hn
    by_cases hz : n = 0
    · simp [digitsLE, hz, Nat.ofDigits]
    · simp only [digitsLE, hz, if_false, Nat.ofDigits_cons]
      have hdiv : n / 10 ≤ fu := by
        have := Nat.div_lt_self (Nat.pos_of_ne_zero hz) (by norm_num : 1 < 10)
        omega
      rw [ih _ hdiv]
      omega

theorem natDigits_all_lt (n : ℕ) : ∀ d ∈ natDigits n, d < 10 :=
  digitsLE_lt_ten n n

theorem ofDigits_natDigits (n : ℕ) : Nat.ofDigits 10 (natDigits n) = n :=
  ofDigits_digitsLE n n (le_refl n)

theorem natDigits_ne_nil (n : ℕ) (h : n ≠ 0) : natDigits n ≠ [] := by
  unfold natDigits
  cases n with
  | zero => exact absurd rfl h
  | succ m => simp [digitsLE, h]

theorem charDigit_digitChar (d : ℕ) (h : d < 10) : charDigit (digitChar d) = some d := by
  interval_cases d <;> rfl

theorem isDigitCh_digitChar (d : ℕ) (h : d < 10) : isDigitCh (digitChar d) = true := by
  simp [isDigitCh, charDigit_digitChar d h]

theorem digitVal_digitChar (d : ℕ) (h : d < 10) : digitVal (digitChar d) = d := by
  simp [digitVal, charDigit_digitChar d h]

theorem mem_natChars_digit (n : ℕ) (c : Char) (hc : c ∈ natChars n) :
    isDigitCh c = true := by
  unfold natChars at hc
  by_cases hn : n = 0
  · rw [if_pos hn] at hc
    simp at hc
    rw [hc]
    rfl
  · rw [if_neg hn] at hc
    rw [List.mem_reverse] at hc
    obtain ⟨d, hd, rfl⟩ := List.mem_map.mp hc
    exact isDigitCh_digitChar d (natDigits_all_lt n d hd)

theorem natChars_ne_nil (n : ℕ) : natChars n ≠ [] := by
  unfold natChars
  by_cases hn : n = 0
  · simp [hn]
  · rw [if_neg hn]
    simp [natDigits_ne_nil n hn]

theorem parseNatChars_natChars (n : ℕ) : parseNatChars (natChars n) = some n := by
  by_cases hn : n = 0
  · rw [hn]; rfl
  · have hnil : natChars n ≠ [] := natChars_ne_nil n
    have hall : (natChars n).all isDigitCh = true := by
      rw [List.all_eq_true]
      exact fun c hc => mem_natChars_digit n c hc
    unfold parseNatChars
    rw [if_neg (by simpa [List.isEmpty_iff] using hnil), if_pos hall]
    congr 1
    have hmap : (natChars n).map digitVal = (natDigits n).reverse := by
      unfold natChars
      rw [if_neg hn, List.map_reverse, List.map_map]
      congr 1
      conv_rhs => rw [← List.map_id (natDigits n)]
      apply List.map_congr_left
      intro d hd
      exact digitVal_digitChar d (natDigits_all_lt n d hd)
    rw [hmap, List.reverse_reverse, ofDigits_natDigits]

theorem length_padDigits : ∀ (k m : ℕ), (padDigits m k).length = k := by
  intro k
  induction k with
  | zero => intro m; rfl
  | succ j ih => intro m; simp [padDigits, ih]

theorem padDigits_all_lt : ∀ (k m : ℕ), ∀ d ∈ padDigits m k, d < 10 := by
  intro k
  induction k with
  | zero => intro m d hd; simp [padDigits] at hd
  | succ j ih =>
    intro m d hd
    rcases List.mem_cons.mp hd with h | h
    · rw [h]; exact Nat.mod_lt _ (by norm_num)
    · exact ih _ d h

theorem ofDigits_padDigits : ∀ (k m : ℕ),
    Nat.ofDigits 10 (padDigits m k) = m % 10 ^ k := by
  intro k
  induction k with
  | zero => intro m; simp [padDigits, Nat.ofDigits, Nat.mod_one]
  | succ j ih =>
    intro m
    show Nat.ofDigits 10 (m % 10 :: padDigits (m / 10) j) = m % 10 ^ (j + 1)
    rw [Nat.ofDigits_cons, ih]
    have h1 : (10:ℕ) ^ (j + 1) = 10 * 10 ^ j := by ring
    rw [h1, Nat.mod_mul]

theorem length_fracChars (m k : ℕ) : (fracChars m k).length = k := by
  simp [fracChars, length_padDigits]

theorem mem_fracChars_digit (m k : ℕ) (c : Char) (hc : c ∈ fracChars m k) :
    isDigitCh c = true := by
  unfold fracChars at hc
  rw [List.mem_reverse] at hc
  obtain ⟨d, hd, rfl⟩ := List.mem_map.mp hc
  exact isDigitCh_digitChar d (padDigits_all_lt k m d hd)

theorem parseNatChars_fracChars (m k : ℕ) (hk : k ≠ 0) :
    parseNatChars (fracChars m k) = some (m % 10 ^ k) := by
  have hlen : (fracChars m k).length = k := length_fracChars m k
  have hnil : ¬(fracChars m k).isEmpty = true := by
    rw [List.isEmpty_iff_length_eq_zero, hlen]
    exact hk
  have hall : (fracChars m k).all isDigitCh = true := by
    rw [List.all_eq_true]
    exact fun c hc => mem_fracChars_digit m k c hc
  unfold parseNatChars
  rw [if_neg hnil, if_pos hall]
  congr 1
  have hmap : (fracChars m k).map digitVal = (padDigits m k).reverse := by
    unfold fracChars
    rw [List.map_reverse, List.map_map]
    congr 1
    conv_rhs => rw [← List.map_id (padDigits m k)]
    apply List.map_congr_left
    intro d hd
    exact digitVal_digitChar d (padDigits_all_lt k m d hd)
  rw [hmap, List.reverse_reverse, ofDigits_padDigits]

/-! ### Decimal printer correctness -/

theorem natChars_head (n : ℕ) :
    ∃ c cs, natChars n = c :: cs ∧ isDigitCh c = true := by
  cases hnc : natChars n with
  | nil => exact absurd hnc (natChars_ne_nil n)
  | cons c cs =>
    exact ⟨c, cs, rfl, mem_natChars_digit n c (by rw [hnc]; exact List.mem_cons_self c cs)⟩

theorem dot_not_mem_natChars (n : ℕ) : '.' ∉ natChars n := by
  intro hd
  have := mem_natChars_digit n '.' hd
  simp [isDigitCh, charDigit] at this

theorem dot_not_mem_fracChars (m k : ℕ) : '.' ∉ fracChars m k := by
  intro hd
  have := mem_fracChars_digit m k '.' hd
  simp [isDigitCh, charDigit] at this

theorem comma_not_mem_natChars (n : ℕ) : ',' ∉ natChars n := by
  intro hd
  have := mem_natChars_digit n ',' hd
  simp [isDigitCh, charDigit] at this

theorem comma_not_mem_fracChars (m k : ℕ) : ',' ∉ fracChars m k := by
  intro hd
  have := mem_fracChars_digit m k ',' hd
  simp [isDigitCh, charDigit] at this

theorem mkRat_eq_of_cross (q : ℚ) (z : ℤ) (k : ℕ)
    (h : z * (q.den : ℤ) = q.num * 10 ^ k) : mkRat z (10 ^ k) = q := by
  have hd : (10:ℕ) ^ k ≠ 0 := by positivity
  rw [← Rat.mkRat_self q, Rat.mkRat_eq_iff hd q.den_nz]
  push_cast
  exact h

theorem parseDec_natChars (m : ℕ) :
    parseDec (natChars m) = some (mkRat (m : ℤ) 1) := by
  obtain ⟨c, cs, hc, hcd⟩ := natChars_head m
  have hne : ¬((natChars m).head? = some '-') := by
    rw [hc]
    simp only [List.head?]
    intro hsome
    injection hsome with h'
    rw [h'] at hcd
    simp [isDigitCh, charDigit] at hcd
  have hneg : decide ((natChars m).head? = some '-') = false := by
    simp [hne]
  have hsplit : splitChar '.' (natChars m) = [natChars m] :=
    splitChar_no_sep _ _ (dot_not_mem_natChars m)
  simp only [parseDec, hneg, Bool.false_eq_true, if_false, hsplit]
  rw [parseNatChars_natChars]
  simp

theorem parseDec_neg_natChars (m : ℕ) :
    parseDec ('-' :: natChars m) = some (mkRat (-(m : ℤ)) 1) := by
  have hneg : decide (('-' :: natChars m).head? = some '-') = true := by simp
  have hsplit : splitChar '.' (natChars m) = [natChars m] :=
    splitChar_no_sep _ _ (dot_not_mem_natChars m)
  simp only [parseDec, hneg, if_true, List.tail_cons, hsplit]
  rw [parseNatChars_natChars]
  simp

theorem parseDec_decimal (m k : ℕ) (hk : k ≠ 0) :
    parseDec (natChars (m / 10 ^ k) ++ '.' :: fracChars (m % 10 ^ k) k) =
      some (mkRat (m : ℤ) (10 ^ k)) := by
  obtain ⟨c, cs, hc, hcd⟩ := natChars_head (m / 10 ^ k)
  have hcne : c ≠ '-' := by
    intro hcc
    rw [hcc] at hcd
    simp [isDigitCh, charDigit] at hcd
  have hhead : (natChars (m / 10 ^ k) ++ '.' :: fracChars (m % 10 ^ k) k).head?
      = some c := by
    rw [hc]
    rfl
  have hneg : decide ((natChars (m / 10 ^ k) ++ '.' :: fracChars (m % 10 ^ k) k).head?
      = some '-') = false := by
    rw [hhead]
    simp [hcne]
  have hsplit : splitChar '.' (natChars (m / 10 ^ k) ++ '.' :: fracChars (m % 10 ^ k) k)
      = [natChars (m / 10 ^ k), fracChars (m % 10 ^ k) k] := by
    rw [splitChar_append _ _ _ (dot_not_mem_natChars _),
      splitChar_no_sep _ _ (dot_not_mem_fracChars _ _)]
  simp only [parseDec, hneg, Bool.false_eq_true, if_false, hsplit]
  rw [parseNatChars_natChars, parseNatChars_fracChars _ _ hk]
  simp only [length_fracChars, Nat.mod_mod_of_dvd _ (dvd_refl (10 ^ k))]
  have hnat : m / 10 ^ k * 10 ^ k + m % 10 ^ k = m := by
    rw [mul_comm]
    exact Nat.div_add_mod m (10 ^ k)
  have hm : ((m / 10 ^ k : ℕ) : ℤ) * 10 ^ k + ((m % 10 ^ k : ℕ) : ℤ) = (m : ℤ) := by
    exact_mod_cast hnat
  rw [hm]

theorem parseDec_neg_decimal (m k : ℕ) (hk : k ≠ 0) :
    parseDec ('-' :: (natChars (m / 10 ^ k) ++ '.' :: fracChars (m % 10 ^ k) k)) =
      some (mkRat (-(m : ℤ)) (10 ^ k)) := by
  have hneg : decide (('-' :: (natChars (m / 10 ^ k) ++ '.' ::
      fracChars (m % 10 ^ k) k)).head? = some '-') = true := by simp
  have hsplit : splitChar '.' (natChars (m / 10 ^ k) ++ '.' :: fracChars (m % 10 ^ k) k)
      = [natChars (m / 10 ^ k), fracChars (m % 10 ^ k) k] := by
    rw [splitChar_append _ _ _ (dot_not_mem_natChars _),
      splitChar_no_sep _ _ (dot_not_mem_fracChars _ _)]
  simp only [parseDec, hneg, if_true, List.tail_cons, hsplit]
  rw [parseNatChars_natChars, parseNatChars_fracChars _ _ hk]
  simp only [length_fracChars, Nat.mod_mod_of_dvd _ (dvd_refl (10 ^ k))]
  have hnat : m / 10 ^ k * 10 ^ k + m % 10 ^ k = m := by
    rw [mul_comm]
    exact Nat.div_add_mod m (10 ^ k)
  have hm : ((m / 10 ^ k : ℕ) : ℤ) * 10 ^ k + ((m % 10 ^ k : ℕ) : ℤ) = (m : ℤ) := by
    exact_mod_cast hnat
  rw [hm]

theorem decBody_ne_nil (m k : ℕ) : decBodyChars m k ≠ [] := by
  unfold decBodyChars
  split
  · exact natChars_ne_nil m
  · obtain ⟨c, cs, hc, -⟩ := natChars_head (m / 10 ^ k)
    rw [hc]
    simp

theorem comma_not_mem_decBody (m k : ℕ) : ',' ∉ decBodyChars m k := by
  unfold decBodyChars
  split
  · exact comma_not_mem_natChars m
  · intro hm
    rcases List.mem_append.mp hm with h | h
    · exact comma_not_mem_natChars _ h
    · rcases List.mem_cons.mp h with h | h
      · simp at h
      · exact comma_not_mem_fracChars _ _ h

theorem parseDec_decBody (m k : ℕ) :
    parseDec (decBodyChars m k) = some (mkRat (m : ℤ) (10 ^ k)) := by
  unfold decBodyChars
  split
  · next hk => rw [parseDec_natChars, hk, pow_zero]
  · next hk => exact parseDec_decimal m k hk

theorem parseDec_neg_decBody (m k : ℕ) :
    parseDec ('-' :: decBodyChars m k) = some (mkRat (-(m : ℤ)) (10 ^ k)) := by
  unfold decBodyChars
  split
  · next hk => rw [parseDec_neg_natChars, hk, pow_zero]
  · next hk => exact parseDec_neg_decimal m k hk

theorem parseDec_decString (q : ℚ) (h : DecimalRep q) :
    parseDec (decString q) = some q := by
  have hD : ((10 ^ decExp q / q.den : ℕ) : ℤ) * (q.den : ℤ) = (10:ℤ) ^ decExp q := by
    exact_mod_cast congrArg (fun x : ℕ => (x : ℤ)) (Nat.div_mul_cancel h)
  have hcross : (q.num * ((10 ^ decExp q / q.den : ℕ) : ℤ)) * (q.den : ℤ)
      = q.num * 10 ^ decExp q := by
    rw [mul_assoc, hD]
  have hmk : mkRat (q.num * ((10 ^ decExp q / q.den : ℕ) : ℤ)) (10 ^ decExp q) = q :=
    mkRat_eq_of_cross q _ _ hcross
  simp only [decString]
  split
  · next hzneg =>
    rw [parseDec_neg_decBody]
    have habs : -(((q.num * ((10 ^ decExp q / q.den : ℕ) : ℤ)).natAbs : ℤ))
        = q.num * ((10 ^ decExp q / q.den : ℕ) : ℤ) := by
      rw [Int.ofNat_natAbs_of_nonpos (le_of_lt hzneg), neg_neg]
    rw [habs, hmk]
  · next hzneg =>
    rw [parseDec_decBody]
    have habs : (((q.num * ((10 ^ decExp q / q.den : ℕ) : ℤ)).natAbs : ℤ))
        = q.num * ((10 ^ decExp q / q.den : ℕ) : ℤ) :=
      Int.natAbs_of_nonneg (not_lt.mp hzneg)
    rw [habs, hmk]

theorem decString_ne_nil (q : ℚ) : decString q ≠ [] := by
  simp only [decString]
  split
  · simp
  · exact decBody_ne_nil _ _

theorem comma_not_mem_decString (q : ℚ) : ',' ∉ decString q := by
  simp only [decString]
  split
  · intro hm
    rcases List.mem_cons.mp hm with h | h
    · simp at h
    · exact comma_not_mem_decBody _ _ h
  · exact comma_not_mem_decBody _ _

theorem parseCell_decString (q : ℚ) (h : DecimalRep q) :
    parseCell (decString q) = .num q := by
  unfold parseCell
  rw [if_neg (by simpa [List.isEmpty_iff] using decString_ne_nil q)]
  rw [parseDec_decString q h]

theorem serializeCell_no_comma (x : Cell) (hx : ',' ∉ cellText x) :
    ',' ∉ serializeCell x := by
  cases x with
  | na => simp [serializeCell]
  | num q => exact comma_not_mem_decString q
  | str s => exact hx

/-! ### CSV structural round trip -/

theorem range_map_eq_map (l : List α) (F : ℕ → β) (G : α → β)
    (h : ∀ (j : ℕ) (a : α), l.get? j = some a → F j = G a) :
    (List.range l.length).map F = l.map G := by
  induction l generalizing F with
  | nil => rfl
  | cons a t ih =>
    rw [List.length_cons, List.range_succ_eq_map, List.map_cons, List.map_cons,
      List.map_map]
    congr 1
    · exact h 0 a rfl
    · exact ih (F ∘ Nat.succ) (fun j b hj => h (j + 1) b hj)

theorem buildCol_eq (rows : List (List Cell)) (nameChars : List Char) (j : ℕ)
    (cs : List Cell) (h : rows.map (fun r => (r.get? j).getD Cell.na) = cs) :
    buildCol rows nameChars j = ⟨⟨nameChars⟩, cs.all (fun c => !isStr c), cs⟩ := by
  rw [buildCol, h]

/-- Writing a well-formed frame as comma-separated lines and re-parsing
it reconstructs every column: same name, and every cell re-parsed from
its serialized text. -/
theorem parseCsv_writeCsv (f : TabularFrame) (hwf : WellFormed f)
    (hcols : f.cols ≠ [])
    (hnames : ∀ c ∈ f.cols, ',' ∉ c.name.data)
    (hstr : ∀ c ∈ f.cols, ∀ x ∈ c.cells, ',' ∉ cellText x) :
    (parseCsv (writeCsv f)).cols = f.cols.map (fun c =>
      ⟨c.name,
        (c.cells.map (fun x => parseCell (serializeCell x))).all (fun y => !isStr y),
        c.cells.map (fun x => parseCell (serializeCell x))⟩) := by
  have hsplitH : splitChar ',' (joinChar ',' (f.cols.map (fun c => c.name.data)))
      = f.cols.map (fun c => c.name.data) := by
    apply join_split
    · simpa using hcols
    · intro p hp
      obtain ⟨c, hc, rfl⟩ := List.mem_map.mp hp
      exact hnames c hc
  have hrow : ∀ i : ℕ, splitChar ',' (joinChar ',' (f.cols.map (fun c =>
      serializeCell ((c.cells.get? i).getD Cell.na))))
      = f.cols.map (fun c => serializeCell ((c.cells.get? i).getD Cell.na)) := by
    intro i
    apply join_split
    · simpa using hcols
    · intro p hp
      obtain ⟨c, hc, rfl⟩ := List.mem_map.mp hp
      apply serializeCell_no_comma
      cases hg : c.cells.get? i with
      | none => simp [cellText]
      | some x => simpa using hstr c hc x (List.get?_mem hg)
  have hrows : ((List.range (nRows f)).map (fun i => joinChar ',' (f.cols.map (fun c =>
        serializeCell ((c.cells.get? i).getD Cell.na))))).map
        (fun line => (splitChar ',' line).map parseCell)
      = (List.range (nRows f)).map (fun i => f.cols.map (fun c =>
          parseCell (serializeCell ((c.cells.get? i).getD Cell.na)))) := by
    rw [List.map_map]
    apply List.map_congr_left
    intro i _
    show (splitChar ',' (joinChar ',' (f.cols.map (fun c =>
        serializeCell ((c.cells.get? i).getD Cell.na))))).map parseCell = _
    rw [hrow i, List.map_map]
    rfl
  simp only [writeCsv, parseCsv]
  rw [hsplitH, hrows, List.length_map]
  apply range_map_eq_map
  intro j cj hj
  have hname : ((f.cols.map (fun c => c.name.data)).get? j).getD [] = cj.name.data := by
    rw [List.get?_map, hj]
    rfl
  have hcells : ((List.range (nRows f)).map (fun i => f.cols.map (fun c =>
        parseCell (serializeCell ((c.cells.get? i).getD Cell.na))))).map
        (fun r => (r.get? j).getD Cell.na)
      = cj.cells.map (fun x => parseCell (serializeCell x)) := by
    rw [List.map_map]
    rw [show nRows f = cj.cells.length from (hwf cj (List.get?_mem hj)).symm]
    apply range_map_eq_map
    intro i x hx
    show ((f.cols.map (fun c => parseCell (serializeCell
        ((c.cells.get? i).getD Cell.na)))).get? j).getD Cell.na
      = parseCell (serializeCell x)
    rw [List.get?_map, hj]
    simp only [Option.map_some', Option.getD_some]
    rw [hx]
    rfl
  rw [buildCol_eq _ _ _ _ hcells, hname]

/-- C9: writing a cleaned frame with `to_csv` and re-parsing the lines
with the comma parser of the Format Resolver reproduces the value
column exactly, provided names and text cells are comma-free and the
value column holds finite-decimal numbers — the class float printing
always produces. -/
theorem csv_value_roundtrip :
    ∀ (f : TabularFrame) (col : String),
      WellFormed f → f.cols ≠ [] →
      (∀ c ∈ f.cols, ',' ∉ c.name.data) →
      (∀ c ∈ f.cols, ∀ x ∈ c.cells, ',' ∉ cellText x) →
      (valueCells f col).all isDecimalNum = true →
      valueCells (parseCsv (writeCsv f)) col = valueCells f col := by
  intro f col hwf hcols hnames hstr hval
  have hstruct := parseCsv_writeCsv f hwf hcols hnames hstr
  unfold valueCells
  unfold valueCells at hval
  rw [hstruct, find?_map_col (fun c => (⟨c.name,
      (c.cells.map (fun x => parseCell (serializeCell x))).all (fun y => !isStr y),
      c.cells.map (fun x => parseCell (serializeCell x))⟩ : Col))
    (fun c => rfl) f.cols col]
  cases hfind : f.cols.find? (fun c => c.name == col) with
  | none => simp
  | some col0 =>
    rw [hfind] at hval
    simp only [Option.map_some', Option.getD_some] at hval ⊢
    conv_rhs => rw [← List.map_id col0.cells]
    apply List.map_congr_left
    intro x hx
    have hxd : isDecimalNum x = true := List.all_eq_true.mp hval x hx
    cases x with
    | na => simp [isDecimalNum] at hxd
    | str s => simp [isDecimalNum] at hxd
    | num q =>
      have hq : DecimalRep q := of_decide_eq_true (by simpa [isDecimalNum] using hxd)
      simpa [serializeCell] using parseCell_decString q hq

/-- C9 (witness): the round trip applied to the cleaned 4-row scenario
frame, hypotheses discharged by evaluation. -/
theorem csv_value_roundtrip_witness :
    valueCells (parseCsv (writeCsv demoCleaned)) "caudal_m3s" =
      valueCells demoCleaned "caudal_m3s" :=
  csv_value_roundtrip demoCleaned "caudal_m3s" (by decide) (by decide) (by decide)
    (by decide) (by decide)

end Caudal
